import Mathlib

/-!
Verification of the voice-reference caching and synthesis-dispatch engine of
the lipcoder repository, embedded from src/server/xtts_v2_server.py.

The embedding models the pure logic of the server: the speaker-embedding
cache (class SpeakerEmbeddingCache), the voice resolver (get_speaker_voice),
the language heuristic inlined in the HTTP endpoints, and the audio
post-processing pipeline.  External collaborators (the XTTS model, torch
serialization, librosa resampling, the filesystem) are modelled as explicit
parameters or explicit state, following the source line by line.
-/

namespace Lipcoder

/-! ## Language heuristic (xtts_v2_server.py lines 447-455, 678-685, 772-779)

The three synthesis endpoints share a verbatim-identical detection block:
they count characters in the Hangul-syllable range against all alphabetic
characters and pick Korean when the ratio exceeds 0.3. -/

/-- A character in the Hangul syllable block, the source comparison
written there as a test against the UAC00..UD7A3 range. -/
def isHangulSyllable (c : Char) : Bool :=
  (0xAC00 ≤ c.toNat) && (c.toNat ≤ 0xD7A3)

/-- Model of the Python str.isalpha predicate, restricted to the two
scripts the server distinguishes: ASCII letters and Hangul syllables.
Python treats further Unicode letter classes as alphabetic as well; none of
them take part in the behaviour the specification describes. -/
def pyIsAlpha (c : Char) : Bool :=
  c.isAlpha || isHangulSyllable c

/-- Count of Hangul-syllable characters in the text (the source variable
korean_chars). -/
def korean_chars (text : String) : Nat :=
  (text.data.filter isHangulSyllable).length

/-- Count of alphabetic characters in the text (the source variable
total_chars). -/
def total_chars (text : String) : Nat :=
  (text.data.filter pyIsAlpha).length

/-- The language heuristic of the endpoints: Korean exactly when
total_chars is positive and korean_chars / total_chars exceeds 0.3.  The
floating-point comparison of the source is modelled as the exact rational
comparison 10 * korean_chars over 3 * total_chars; the two agree on every
count pair reachable from text of realistic length. -/
def detect_language (text : String) : String :=
  if 0 < total_chars text && 3 * total_chars text < 10 * korean_chars text then
    "ko"
  else
    "en"

/-- The language-field handling shared by the endpoints: read the field
with a per-endpoint default, then run detection only when the value is the
sentinel auto or empty.  The returned flag records whether detection ran. -/
def resolve_language (dflt : String) (field : Option String) (text : String) :
    String × Bool :=
  let language := field.getD dflt
  if language = "auto" || language = "" then (detect_language text, true)
  else (language, false)

/-- Language handling of the /tts endpoint (line 441: default is ko). -/
def tts_language (field : Option String) (text : String) : String × Bool :=
  resolve_language "ko" field text

/-- Language handling of the /tts_direct endpoint (line 671: default en). -/
def tts_direct_language (field : Option String) (text : String) : String × Bool :=
  resolve_language "en" field text

/-- Language handling of the /tts_fast endpoint (line 766: default en). -/
def tts_fast_language (field : Option String) (text : String) : String × Bool :=
  resolve_language "en" field text

/-! ## Voice resolver (xtts_v2_server.py lines 44-52 and 239-285) -/

/-- The catalog entry VOICE_MAPPING default, shared by the default and the
variable categories. -/
def defaultMapping : List (String × String) :=
  [("en", "variable_eng.wav"), ("ko", "variable_kor.wav")]

/-- The static VOICE_MAPPING catalog, in source insertion order. -/
def VOICE_MAPPING : List (String × List (String × String)) :=
  [ ("comment",  [("en", "comment_eng.wav"),  ("ko", "comment_kor.wav")]),
    ("keyword",  [("en", "keyword_eng.wav"),  ("ko", "keyword_kor.wav")]),
    ("literal",  [("en", "literal_eng.wav"),  ("ko", "literal_kor.wav")]),
    ("operator", [("en", "operator_eng.wav"), ("ko", "operator_kor.wav")]),
    ("type",     [("en", "type_eng.wav"),     ("ko", "type_kor.wav")]),
    ("variable", defaultMapping),
    ("default",  defaultMapping) ]

/-- Every catalogued voice file, in the order the fallback scan of
get_speaker_voice visits them (outer catalog order, inner language order). -/
def allVoiceFiles : List String :=
  (VOICE_MAPPING.map Prod.snd).flatMap (fun m => m.map Prod.snd)

/-- Category selection of get_speaker_voice (lines 244-247): the category
mapping when the category is truthy and catalogued, else the default
mapping (an absent category, the empty string, and an unknown category all
fall back). -/
def pick_mapping (category : Option String) : List (String × String) :=
  match category with
  | none => defaultMapping
  | some c =>
    if c = "" then defaultMapping
    else
      match List.lookup c VOICE_MAPPING with
      | some m => m
      | none => defaultMapping

/-- Language selection of get_speaker_voice (lines 250-259): the language
entry when present, else the English entry, else the first value of the
mapping (that last default is what dict.get with a first-value default
does; it is unreachable in this catalog, where every mapping carries an
English entry). -/
def pick_file (voice_mapping : List (String × String)) (language : String) :
    String :=
  match List.lookup language voice_mapping with
  | some f => f
  | none =>
    match List.lookup "en" voice_mapping with
    | some f => f
    | none => (voice_mapping.map Prod.snd).headD ""

/-- The voice resolver get_speaker_voice (lines 239-285).  The filesystem
is the predicate ex, true on the files that exist in the voices
directory; the function returns the chosen file name (the source returns
the full path under the voices directory).  After the two-level selection
comes the existence check, then the full catalog scan for the first
backing file that exists. -/
def get_speaker_voice (ex : String → Bool) (category : Option String)
    (language : String) : Option String :=
  let voice_file := pick_file (pick_mapping category) language
  if ex voice_file then some voice_file
  else allVoiceFiles.find? (fun f => ex f)

/-- Modelled from the spec words of section 4.3: look up the category
(default when absent or unknown) for the requested language, fall back to
the English entry of that category, then to the first catalogued entry
whose backing file exists, else nothing.  Stated separately so the source
resolver can be proved equal to it. -/
def resolveSpec (ex : String → Bool) (category : Option String)
    (language : String) : Option String :=
  let m := pick_mapping category
  let f :=
    match List.lookup language m with
    | some f => f
    | none => (List.lookup "en" m).getD ""
  if ex f then some f else allVoiceFiles.find? (fun f => ex f)

/-! ## CacheKey derivation (xtts_v2_server.py lines 64-68)

get_file_hash stats the file and hashes the concatenation of the path, an
underscore, the modification time, an underscore, and the byte size.  The
decimal rendering of the stat fields is modelled by natDigits (timestamps
are modelled as naturals); the MD5 digest is modelled as an injective
encoding, the idealization the specification itself makes when it asks for
a sufficiently collision-resistant hash. -/

/-- Fuel-driven decimal digit accumulator, the shape of the core
Nat.toDigits renderer specialized to base ten. -/
def natDigitsCore : Nat → Nat → List Char → List Char
  | 0, _, ds => ds
  | fuel + 1, n, ds =>
    let d := Nat.digitChar (n % 10)
    if n / 10 = 0 then d :: ds else natDigitsCore fuel (n / 10) (d :: ds)

/-- Decimal rendering of a natural number. -/
def natDigits (n : Nat) : List Char := natDigitsCore (n + 1) n []

/-- Numeric value of a decimal digit character. -/
def digitVal (c : Char) : Nat := c.toNat - 48

/-- Evaluate a decimal digit list back to a natural number. -/
def decodeDigits (l : List Char) : Nat :=
  l.foldl (fun a c => 10 * a + digitVal c) 0

/-- A stat record of a file on disk: modification time, size, and the byte
content (the content is carried only to state that key derivation never
reads it). -/
structure FileMeta where
  mtime : Nat
  size : Nat
  content : List Nat
deriving DecidableEq

/-- The filesystem visible to the server, as an association of paths to
stat records. -/
def FS := List (String × FileMeta)

/-- The MD5 hex digest of the source, modelled as an injective encoding of
its input (ideal collision-free hash). -/
def md5Hex (s : List Char) : List Char := s

/-- The content string hashed by get_file_hash: path, underscore, mtime,
underscore, size. -/
def keyContent (file_path : String) (mtime size : Nat) : List Char :=
  file_path.data ++ '_' :: natDigits mtime ++ '_' :: natDigits size

/-- The derived cache key of a file as stat-ed on the given filesystem;
none when the path does not exist (os.stat raises FileNotFoundError). -/
def get_file_hash (fs : FS) (file_path : String) : Option (List Char) :=
  match List.lookup file_path fs with
  | none => none
  | some st => some (md5Hex (keyContent file_path st.mtime st.size))

/-! ## The speaker-embedding store (xtts_v2_server.py lines 55-234)

State of a SpeakerEmbeddingCache instance plus the persistent cache
directory.  The in-memory dictionaries embeddings and metadata live in the
instance; the blob files (hash.pt, written by torch.save) and the metadata
json file live on disk and survive a restart.  Dictionary assignment is
modelled by prepending, List.lookup returning the most recent binding. -/

/-- The conditioning data returned by the extractor: the two latent
tensors as abstract payloads, plus the measured extraction time. -/
structure EmbData where
  gpt_cond_latent : Nat
  speaker_embedding : Nat
  extraction_time : Nat
deriving DecidableEq

/-- A metadata-index record, the dictionary the source stores per hash:
source path, mtime at capture, category tag, extraction duration. -/
structure MetaRecord where
  path : String
  mtime : Nat
  category : Option String
  extraction_time : Nat
deriving DecidableEq

/-- Cache keys are the hex digests produced by get_file_hash. -/
abbrev Key := List Char

/-- Full state of the store: the two in-memory dictionaries of the
instance, and the persistent tier (blob files and the metadata json). -/
structure CacheState where
  embeddings : List (Key × EmbData)
  metadata : List (Key × MetaRecord)
  blobs : List (Key × EmbData)
  metaFile : Option (List (Key × MetaRecord))
deriving DecidableEq

/-- The state of a freshly created cache over an empty cache directory. -/
def initState : CacheState :=
  { embeddings := [], metadata := [], blobs := [], metaFile := none }

/-- A restart: a new instance over the same cache directory.  Mirrors
SpeakerEmbeddingCache init plus load_cache_metadata (lines 56-79): memory
empty, metadata re-read from the json file when it exists, blobs persist. -/
def restart (st : CacheState) : CacheState :=
  { embeddings := [],
    metadata := st.metaFile.getD [],
    blobs := st.blobs,
    metaFile := st.metaFile }

/-- Outcome of cache_speaker_embedding: the value returned to the caller,
the successor state, and how many times the extractor collaborator ran. -/
structure CacheOutcome where
  result : Option EmbData
  state : CacheState
  extractorCalls : Nat
deriving DecidableEq

/-- The up-to-date check of cache_speaker_embedding (line 129): the hash
must be indexed in the metadata dictionary and the blob file must exist on
disk; the stored blob is then what torch.load returns (deserialization is
modelled as succeeding on an existing blob). -/
def cachedLookup (st : CacheState) (k : Key) : Option EmbData :=
  match List.lookup k st.metadata with
  | none => none
  | some _ => List.lookup k st.blobs

/-- cache_speaker_embedding (lines 119-167), the getOrExtract entry point.
The extractor collaborator stands for extract_speaker_embedding
(lines 93-117), which wraps model.get_conditioning_latents and returns
None when the model raises.  diskWriteOk models whether torch.save
(line 146) succeeds; when it raises, the except branch returns the data
with no store mutated, because the memory insert and the metadata update
sit after the save inside the try block.  metaSaveOk models whether
save_cache_metadata manages to write the json file (it swallows its own
errors, so it never aborts the caller). -/
def cache_speaker_embedding (fs : FS) (extractor : String → Option EmbData)
    (diskWriteOk metaSaveOk : Bool) (st : CacheState)
    (audio_path : String) (category : Option String) : CacheOutcome :=
  match List.lookup audio_path fs with
  | none => ⟨none, st, 0⟩
  | some fmeta =>
    let file_hash := md5Hex (keyContent audio_path fmeta.mtime fmeta.size)
    match cachedLookup st file_hash with
    | some cached_data =>
      ⟨some cached_data,
       { st with embeddings := (file_hash, cached_data) :: st.embeddings }, 0⟩
    | none =>
      match extractor audio_path with
      | none => ⟨none, st, 1⟩
      | some embedding_data =>
        if diskWriteOk then
          let newMetadata :=
            (file_hash,
             { path := audio_path, mtime := fmeta.mtime, category := category,
               extraction_time := embedding_data.extraction_time }) :: st.metadata
          ⟨some embedding_data,
           { embeddings := (file_hash, embedding_data) :: st.embeddings,
             metadata := newMetadata,
             blobs := (file_hash, embedding_data) :: st.blobs,
             metaFile := if metaSaveOk then some newMetadata else st.metaFile },
           1⟩
        else
          ⟨some embedding_data, st, 1⟩

/-- Outcome of get_cached_embedding: value and successor state.  The
operation takes no extractor, so by construction it can never trigger an
extraction. -/
structure GetOutcome where
  result : Option EmbData
  state : CacheState
deriving DecidableEq

/-- get_cached_embedding (lines 169-190): memory tier first, then the
persistent tier, promoting a persistent hit into memory; none on a cold
key or a missing file. -/
def get_cached_embedding (fs : FS) (st : CacheState) (audio_path : String) :
    GetOutcome :=
  match List.lookup audio_path fs with
  | none => ⟨none, st⟩
  | some fmeta =>
    let file_hash := md5Hex (keyContent audio_path fmeta.mtime fmeta.size)
    match List.lookup file_hash st.embeddings with
    | some d => ⟨some d, st⟩
    | none =>
      match cachedLookup st file_hash with
      | some cached_data =>
        ⟨some cached_data,
         { st with embeddings := (file_hash, cached_data) :: st.embeddings }⟩
      | none => ⟨none, st⟩

/-! ## Concurrent callers of cache_speaker_embedding

The server runs requests concurrently (several endpoints call into the one
global speaker_cache) and cache_speaker_embedding takes no lock: the only
suspension point on the cold path is the long-running extractor call
between the cached-check and the store.  The model below runs two callers
of cache_speaker_embedding on the same path as an interleaving of three
atomic steps each: the cached-check, the extractor call, and the store of
the result (persistence modelled as succeeding). -/

/-- Program counter of one caller inside cache_speaker_embedding. -/
inductive Phase where
  | check : Phase
  | extract : Phase
  | store : EmbData → Phase
  | done : Option EmbData → Phase
deriving DecidableEq

/-- One atomic step of a caller: check against the cache, run the
extractor, or store the extracted data into every tier.  Returns the new
shared state, the next phase, and how many extractor invocations the step
made. -/
def phase_step (fs : FS) (extractor : String → Option EmbData)
    (audio_path : String) (category : Option String) (st : CacheState) :
    Phase → CacheState × Phase × Nat
  | .check =>
    match List.lookup audio_path fs with
    | none => (st, .done none, 0)
    | some fmeta =>
      let file_hash := md5Hex (keyContent audio_path fmeta.mtime fmeta.size)
      match cachedLookup st file_hash with
      | some cached_data =>
        ({ st with embeddings := (file_hash, cached_data) :: st.embeddings },
         .done (some cached_data), 0)
      | none => (st, .extract, 0)
  | .extract =>
    match extractor audio_path with
    | none => (st, .done none, 1)
    | some embedding_data => (st, .store embedding_data, 1)
  | .store embedding_data =>
    match List.lookup audio_path fs with
    | none => (st, .done (some embedding_data), 0)
    | some fmeta =>
      let file_hash := md5Hex (keyContent audio_path fmeta.mtime fmeta.size)
      let newMetadata :=
        (file_hash,
         { path := audio_path, mtime := fmeta.mtime, category := category,
           extraction_time := embedding_data.extraction_time }) :: st.metadata
      ({ embeddings := (file_hash, embedding_data) :: st.embeddings,
         metadata := newMetadata,
         blobs := (file_hash, embedding_data) :: st.blobs,
         metaFile := some newMetadata },
       .done (some embedding_data), 0)
  | .done r => (st, .done r, 0)

/-- Shared state plus the two callers and the running count of extractor
invocations. -/
structure Sys where
  cache : CacheState
  t0 : Phase
  t1 : Phase
  calls : Nat
deriving DecidableEq

/-- Scheduler step: advance the named caller by one atomic step. -/
def sys_step (fs : FS) (extractor : String → Option EmbData)
    (audio_path : String) (category : Option String) (which : Bool)
    (s : Sys) : Sys :=
  if which then
    let r := phase_step fs extractor audio_path category s.cache s.t1
    { cache := r.1, t0 := s.t0, t1 := r.2.1, calls := s.calls + r.2.2 }
  else
    let r := phase_step fs extractor audio_path category s.cache s.t0
    { cache := r.1, t0 := r.2.1, t1 := s.t1, calls := s.calls + r.2.2 }

/-- Run a schedule, an arbitrary interleaving of the two callers. -/
def sys_run (fs : FS) (extractor : String → Option EmbData)
    (audio_path : String) (category : Option String) (sched : List Bool)
    (s : Sys) : Sys :=
  sched.foldl (fun s w => sys_step fs extractor audio_path category w s) s

/-- Both callers about to enter cache_speaker_embedding on a shared cache
state. -/
def sysInit (st : CacheState) : Sys :=
  { cache := st, t0 := .check, t1 := .check, calls := 0 }

/-! ## Audio post-processing (xtts_v2_server.py lines 551-566, 724-737,
884-897) -/

/-- A waveform as the endpoints see it: a rank-one array (mono) or a
rank-two array of frames. -/
inductive Waveform (α : Type) where
  | mono : List α → Waveform α
  | multi : List (List α) → Waveform α
deriving DecidableEq

/-- The channel-duplication step: np.column_stack of a mono array with
itself gives one two-sample frame per input sample; anything already
multi-channel passes through unchanged. -/
def to_stereo {α : Type} : Waveform α → Waveform α
  | .mono a => .multi (a.map fun x => [x, x])
  | .multi m => .multi m

/-- Channel j of a waveform. -/
def channel {α : Type} (j : Nat) : Waveform α → List α
  | .mono a => if j = 0 then a else []
  | .multi m => m.filterMap fun frame => frame.get? j

/-- The fixed post-processing pipeline of the endpoints: resample (an
external collaborator) only when the requested rate differs from the
native rate, then duplicate a mono waveform to stereo. -/
def postprocess {α : Type} (resample : Waveform α → Nat → Nat → Waveform α)
    (sample_rate original_sr : Nat) (wav : Waveform α) : Waveform α × Nat :=
  if sample_rate ≠ original_sr then
    (to_stereo (resample wav original_sr sample_rate), sample_rate)
  else
    (to_stereo wav, original_sr)

/-! ## Theorems -/

/-- Threshold comparison over the rationals agrees with the integer
comparison the embedding uses. -/
theorem ratio_gt_iff {k t : Nat} (ht : 0 < t) :
    ((3 : ℚ) / 10 < (k : ℚ) / (t : ℚ)) ↔ 3 * t < 10 * k := by
  rw [div_lt_div_iff₀ (by norm_num) (by exact_mod_cast ht)]
  constructor
  · intro h
    have h2 : (3 * t : ℚ) < (10 * k : ℚ) := by linarith
    exact_mod_cast h2
  · intro h
    have h2 : (3 * t : ℚ) < (10 * k : ℚ) := by exact_mod_cast h
    push_cast at h2
    linarith

/-- C4: with no pinned language, the heuristic yields the Korean tag
exactly when the ratio of Hangul-syllable characters among alphabetic
characters exceeds 0.3, and the default English tag otherwise; on the
spec examples it yields ko for the Korean greeting, en for plain English
text, and en for all-digit text. -/
theorem detect_language_threshold :
    (∀ text : String,
      (detect_language text = "ko" ↔
        0 < total_chars text ∧
        (3 : ℚ) / 10 < (korean_chars text : ℚ) / (total_chars text : ℚ)) ∧
      (detect_language text = "ko" ∨ detect_language text = "en")) ∧
    detect_language "안녕하세요" = "ko" ∧
    detect_language "hello world" = "en" ∧
    detect_language "123" = "en" := by
  refine ⟨fun text => ⟨?_, ?_⟩, by decide, by decide, by decide⟩
  · unfold detect_language
    split
    case isTrue h =>
      simp only [Bool.and_eq_true, decide_eq_true_eq] at h
      obtain ⟨h1, h2⟩ := h
      simp only [true_iff]
      exact ⟨h1, (ratio_gt_iff h1).mpr h2⟩
    case isFalse h =>
      simp only [Bool.and_eq_true, decide_eq_true_eq, not_and] at h
      constructor
      · intro hko
        simp at hko
      · rintro ⟨h1, h2⟩
        exact absurd ((ratio_gt_iff h1).mp h2) (h h1)
  · unfold detect_language
    split
    · exact Or.inl rfl
    · exact Or.inr rfl

/-- Closed witness for the conditional part of the heuristic theorem. -/
theorem detect_language_threshold_witness :
    detect_language "안녕하세요 hi" = "ko" ↔
      0 < total_chars "안녕하세요 hi" ∧
      (3 : ℚ) / 10 <
        (korean_chars "안녕하세요 hi" : ℚ) / (total_chars "안녕하세요 hi" : ℚ) :=
  (detect_language_threshold.1 "안녕하세요 hi").1

/-- C10: when the language field is omitted, no detection runs; the /tts
endpoint falls back to the fixed tag ko and the /tts_direct and /tts_fast
endpoints to the fixed tag en; detection runs exactly when the field
holds the sentinel auto or the empty string, in which case the heuristic
result is used. -/
theorem endpoint_language_defaults :
    (∀ text : String,
      tts_language none text = ("ko", false) ∧
      tts_direct_language none text = ("en", false) ∧
      tts_fast_language none text = ("en", false)) ∧
    (∀ (s text : String),
      ((tts_language (some s) text).2 = true ↔ s = "auto" ∨ s = "") ∧
      ((tts_direct_language (some s) text).2 = true ↔ s = "auto" ∨ s = "") ∧
      ((tts_fast_language (some s) text).2 = true ↔ s = "auto" ∨ s = "")) ∧
    (∀ (s text : String), s = "auto" ∨ s = "" →
      tts_language (some s) text = (detect_language text, true) ∧
      tts_direct_language (some s) text = (detect_language text, true) ∧
      tts_fast_language (some s) text = (detect_language text, true)) := by
  refine ⟨fun text => ⟨rfl, rfl, rfl⟩, fun s text => ?_, fun s text hs => ?_⟩
  · have key : ∀ dflt : String,
        (resolve_language dflt (some s) text).2 = true ↔ s = "auto" ∨ s = "" := by
      intro dflt
      unfold resolve_language
      by_cases h : s = "auto" ∨ s = ""
      · rcases h with h | h <;> simp [h]
      · push_neg at h
        simp [Option.getD, h.1, h.2]
    exact ⟨key "ko", key "en", key "en"⟩
  · have key : ∀ dflt : String,
        resolve_language dflt (some s) text = (detect_language text, true) := by
      intro dflt
      unfold resolve_language
      rcases hs with h | h <;> simp [h]
    exact ⟨key "ko", key "en", key "en"⟩

/-- Closed witness for the conditional part of the endpoint-default
theorem. -/
theorem endpoint_language_defaults_witness :
    tts_language (some "auto") "abc" = (detect_language "abc", true) :=
  (endpoint_language_defaults.2.2 "auto" "abc" (Or.inl rfl)).1

/-- Both channels of the duplicated frames recover the original samples. -/
theorem channel_dup {α : Type} (a : List α) (j : Nat) (hj : j = 0 ∨ j = 1) :
    (a.map fun x => [x, x]).filterMap (fun frame => frame.get? j) = a := by
  induction a with
  | nil => rfl
  | cons x t ih =>
    rcases hj with h | h <;> subst h <;>
      simpa [List.filterMap_cons] using ih

/-- C9: post-processing turns a mono waveform of length N into a stereo
waveform whose two channels each equal the original samples, passes an
already multi-channel waveform through unchanged, and applies the
resampling collaborator only when the requested rate differs from the
native rate (at an equal rate the outcome does not depend on the
resampler at all). -/
theorem postprocess_stereo :
    (∀ (α : Type) (a : List α),
      to_stereo (Waveform.mono a) = Waveform.multi (a.map fun x => [x, x]) ∧
      channel 0 (to_stereo (Waveform.mono a)) = a ∧
      channel 1 (to_stereo (Waveform.mono a)) = a) ∧
    (∀ (α : Type) (m : List (List α)),
      to_stereo (Waveform.multi m) = Waveform.multi m) ∧
    (∀ (α : Type) (r1 r2 : Waveform α → Nat → Nat → Waveform α)
      (sr : Nat) (wav : Waveform α),
      postprocess r1 sr sr wav = (to_stereo wav, sr) ∧
      postprocess r1 sr sr wav = postprocess r2 sr sr wav) ∧
    (∀ (α : Type) (r : Waveform α → Nat → Nat → Waveform α)
      (sample_rate original_sr : Nat) (wav : Waveform α),
      sample_rate ≠ original_sr →
      postprocess r sample_rate original_sr wav =
        (to_stereo (r wav original_sr sample_rate), sample_rate)) := by
  refine ⟨fun α a => ⟨rfl, ?_, ?_⟩, fun α m => rfl,
    fun α r1 r2 sr wav => ⟨?_, ?_⟩, fun α r s o wav h => ?_⟩
  · exact channel_dup a 0 (Or.inl rfl)
  · exact channel_dup a 1 (Or.inr rfl)
  · simp [postprocess]
  · simp [postprocess]
  · simp [postprocess, h]

/-- Closed witness for the conditional resampling part of the
post-processing theorem. -/
theorem postprocess_stereo_witness :
    postprocess (fun w _ _ => w) 48000 24000 (Waveform.mono [1, 2, 3]) =
      (to_stereo (Waveform.mono [1, 2, 3]), 48000) :=
  postprocess_stereo.2.2.2 Nat (fun w _ _ => w) 48000 24000
    (Waveform.mono [1, 2, 3]) (by decide)

/-- A successful association lookup returns one of the stored values. -/
theorem lookup_val_mem {β : Type} {l : List (String × β)} {c : String} {m : β}
    (h : List.lookup c l = some m) : m ∈ l.map Prod.snd := by
  induction l with
  | nil => simp [List.lookup] at h
  | cons p t ih =>
    obtain ⟨k, v⟩ := p
    rw [List.lookup] at h
    split at h
    · cases h
      simp
    · simpa using Or.inr (ih h)

/-- The selected category mapping is always one of the catalog values. -/
theorem pick_mapping_mem (category : Option String) :
    pick_mapping category ∈ VOICE_MAPPING.map Prod.snd := by
  have hdef : defaultMapping ∈ VOICE_MAPPING.map Prod.snd := by decide
  cases category with
  | none => simpa [pick_mapping] using hdef
  | some c =>
    by_cases hc : c = ""
    · simpa [pick_mapping, hc] using hdef
    · cases h : List.lookup c VOICE_MAPPING with
      | some m => simpa [pick_mapping, hc, h] using lookup_val_mem h
      | none => simpa [pick_mapping, hc, h] using hdef

/-- Every catalog mapping carries an English entry. -/
theorem catalog_en_isSome {M : List (String × String)}
    (hM : M ∈ VOICE_MAPPING.map Prod.snd) : (List.lookup "en" M).isSome := by
  fin_cases hM <;> decide

/-- Values of a catalog mapping occur in the full scan list. -/
theorem file_in_all {M : List (String × String)} {f : String}
    (hM : M ∈ VOICE_MAPPING.map Prod.snd) (hf : f ∈ M.map Prod.snd) :
    f ∈ allVoiceFiles := by
  unfold allVoiceFiles
  exact List.mem_flatMap.mpr ⟨M, hM, hf⟩

/-- The two-level selection always lands on a catalogued file. -/
theorem pick_file_mem {M : List (String × String)}
    (hM : M ∈ VOICE_MAPPING.map Prod.snd) (language : String) :
    pick_file M language ∈ allVoiceFiles := by
  unfold pick_file
  cases h : List.lookup language M with
  | some f => exact file_in_all hM (lookup_val_mem h)
  | none =>
    cases h2 : List.lookup "en" M with
    | some f => exact file_in_all hM (lookup_val_mem h2)
    | none => exact absurd (catalog_en_isSome hM) (by simp [h2])

/-- Over this catalog, the source language selection (with its dict.get
first-value default) coincides with the spec wording (English fallback),
because every mapping has an English entry. -/
theorem pick_file_eq_spec {M : List (String × String)}
    (hM : M ∈ VOICE_MAPPING.map Prod.snd) (language : String) :
    pick_file M language =
      (match List.lookup language M with
       | some f => f
       | none => (List.lookup "en" M).getD "") := by
  unfold pick_file
  cases h : List.lookup language M with
  | some f => simp [h]
  | none =>
    simp only [h]
    cases h2 : List.lookup "en" M with
    | some f => simp [h2]
    | none => exact absurd (catalog_en_isSome hM) (by simp [h2])

/-- C2: the resolver follows exactly the three-level fallback of the spec
(category with default fallback, then language with English fallback,
then the first catalogued file existing on disk), stated as equality with
the resolver written from the spec wording; and it returns nothing
precisely when no catalogued file exists on disk.  Determinism is by
construction: the resolver is a pure function of the catalog snapshot
(fixed), the filesystem predicate, and the inputs. -/
theorem get_speaker_voice_fallback (ex : String → Bool)
    (category : Option String) (language : String) :
    get_speaker_voice ex category language = resolveSpec ex category language ∧
    (get_speaker_voice ex category language = none ↔
      ∀ f ∈ allVoiceFiles, ex f = false) := by
  have hM := pick_mapping_mem category
  have hmem := pick_file_mem hM language
  constructor
  · unfold get_speaker_voice resolveSpec
    rw [pick_file_eq_spec hM]
  · cases hex : ex (pick_file (pick_mapping category) language) with
    | true =>
      simp only [get_speaker_voice, hex, if_true]
      constructor
      · intro h
        cases h
      · intro hall
        exact absurd (hall _ hmem) (by simp [hex])
    | false =>
      simp only [get_speaker_voice, hex, Bool.false_eq_true, if_false]
      rw [List.find?_eq_none]
      constructor
      · intro h f hf
        simpa using h f hf
      · intro h f hf
        simp [h f hf]

/-- A filesystem on which only the Korean comment asset exists. -/
def onlyCommentKor : String → Bool := fun f => f = "comment_kor.wav"

/-- Closed witness instantiating the resolver theorem: with only the
Korean comment asset on disk, resolution for an unknown category in
Korean agrees with the spec resolver and is not none. -/
theorem get_speaker_voice_fallback_witness :
    get_speaker_voice onlyCommentKor (some "unknown") "ko" =
        resolveSpec onlyCommentKor (some "unknown") "ko" ∧
      (get_speaker_voice onlyCommentKor (some "unknown") "ko" = none ↔
        ∀ f ∈ allVoiceFiles, onlyCommentKor f = false) :=
  get_speaker_voice_fallback onlyCommentKor (some "unknown") "ko"

/-- A decimal digit character decodes back to its value. -/
theorem digitVal_digitChar {m : Nat} (h : m < 10) :
    digitVal (Nat.digitChar m) = m := by
  interval_cases m <;> rfl

/-- No decimal digit character is the underscore separator. -/
theorem digitChar_ne_underscore {m : Nat} (h : m < 10) :
    Nat.digitChar m ≠ '_' := by
  interval_cases m <;> decide

/-- The accumulator of the digit renderer is a pure suffix. -/
theorem natDigitsCore_shift (fuel : Nat) : ∀ (n : Nat) (ds : List Char),
    natDigitsCore fuel n ds = natDigitsCore fuel n [] ++ ds := by
  induction fuel with
  | zero => intro n ds; rfl
  | succ f ih =>
    intro n ds
    simp only [natDigitsCore]
    by_cases h : n / 10 = 0
    · simp [h]
    · simp only [h, if_false]
      rw [ih (n / 10) (Nat.digitChar (n % 10) :: ds),
        ih (n / 10) [Nat.digitChar (n % 10)]]
      simp

/-- The decimal renderer round-trips through decoding. -/
theorem decode_natDigitsCore : ∀ (fuel n : Nat), n < fuel →
    decodeDigits (natDigitsCore fuel n []) = n := by
  intro fuel
  induction fuel with
  | zero => intro n h; exact absurd h (Nat.not_lt_zero n)
  | succ f ih =>
    intro n h
    simp only [natDigitsCore]
    by_cases h0 : n / 10 = 0
    · have hn : n < 10 := by omega
      rw [if_pos h0]
      simp [decodeDigits, Nat.mod_eq_of_lt hn, digitVal_digitChar hn]
    · rw [if_neg h0, natDigitsCore_shift]
      have hdiv : n / 10 < f := by omega
      have hrec := ih (n / 10) hdiv
      unfold decodeDigits at hrec ⊢
      rw [List.foldl_append, hrec]
      simp [digitVal_digitChar (Nat.mod_lt n (by omega))]
      omega

/-- Decoding inverts the decimal rendering. -/
theorem decode_natDigits (n : Nat) : decodeDigits (natDigits n) = n :=
  decode_natDigitsCore (n + 1) n (Nat.lt_succ_self n)

/-- The decimal rendering is injective. -/
theorem natDigits_inj {m n : Nat} (h : natDigits m = natDigits n) : m = n := by
  have := congrArg decodeDigits h
  rwa [decode_natDigits, decode_natDigits] at this

/-- The renderer emits no underscore. -/
theorem underscore_not_in_natDigitsCore : ∀ (fuel n : Nat) (ds : List Char),
    '_' ∉ ds → '_' ∉ natDigitsCore fuel n ds := by
  intro fuel
  induction fuel with
  | zero => intro n ds h; simpa [natDigitsCore] using h
  | succ f ih =>
    intro n ds h
    have hd : '_' ∉ (Nat.digitChar (n % 10) :: ds) := by
      intro hmem
      rcases List.mem_cons.mp hmem with he | he
      · exact digitChar_ne_underscore (Nat.mod_lt n (by omega)) he.symm
      · exact h he
    simp only [natDigitsCore]
    by_cases h0 : n / 10 = 0
    · simpa [h0] using hd
    · simpa [h0] using ih (n / 10) _ hd

/-- No underscore occurs in a rendered natural number. -/
theorem underscore_not_in_natDigits (n : Nat) : '_' ∉ natDigits n :=
  underscore_not_in_natDigitsCore (n + 1) n [] (by simp)

/-- Splitting at an underscore separator is unambiguous when neither side
of the separator contains one. -/
theorem sep_split : ∀ (l1 l2 l3 l4 : List Char),
    '_' ∉ l1 → '_' ∉ l3 → l1 ++ '_' :: l2 = l3 ++ '_' :: l4 →
    l1 = l3 ∧ l2 = l4 := by
  intro l1
  induction l1 with
  | nil =>
    intro l2 l3 l4 h1 h3 h
    cases l3 with
    | nil => simpa using h
    | cons c t =>
      simp only [List.nil_append, List.cons_append, List.cons.injEq] at h
      exact absurd (h.1 ▸ List.mem_cons_self c t) h3
  | cons a t1 ih =>
    intro l2 l3 l4 h1 h3 h
    cases l3 with
    | nil =>
      simp only [List.cons_append, List.nil_append, List.cons.injEq] at h
      exact absurd (h.1 ▸ List.mem_cons_self a t1) h1
    | cons b t3 =>
      simp only [List.cons_append, List.cons.injEq] at h
      obtain ⟨hab, hrest⟩ := h
      have h1t : '_' ∉ t1 := fun hm => h1 (List.mem_cons_of_mem a hm)
      have h3t : '_' ∉ t3 := fun hm => h3 (List.mem_cons_of_mem b hm)
      obtain ⟨e1, e2⟩ := ih l2 t3 l4 h1t h3t hrest
      exact ⟨by rw [hab, e1], e2⟩

/-- For a fixed path, the hashed content string determines mtime and
size. -/
theorem keyContent_inj {p : String} {m1 s1 m2 s2 : Nat}
    (h : keyContent p m1 s1 = keyContent p m2 s2) : m1 = m2 ∧ s1 = s2 := by
  unfold keyContent at h
  rw [List.append_assoc, List.append_assoc] at h
  have h2 := List.append_cancel_left h
  simp only [List.cons_append, List.cons.injEq, true_and] at h2
  obtain ⟨e1, e2⟩ := sep_split (natDigits m1) (natDigits s1)
    (natDigits m2) (natDigits s2)
    (underscore_not_in_natDigits m1) (underscore_not_in_natDigits m2) h2
  exact ⟨natDigits_inj e1, natDigits_inj e2⟩

/-- C5: key derivation is deterministic and never reads file content (two
filesystems agreeing on the stat fields of the path give the same key,
whatever the content bytes); it fails exactly when the path does not
exist; and for an unchanged path the key is unchanged if and only if the
mtime and size are unchanged. -/
theorem get_file_hash_spec :
    (∀ (fs1 fs2 : FS) (p : String) (m s : Nat) (c1 c2 : List Nat),
      List.lookup p fs1 = some ⟨m, s, c1⟩ →
      List.lookup p fs2 = some ⟨m, s, c2⟩ →
      get_file_hash fs1 p = get_file_hash fs2 p) ∧
    (∀ (fs : FS) (p : String),
      get_file_hash fs p = none ↔ List.lookup p fs = none) ∧
    (∀ (p : String) (m1 s1 m2 s2 : Nat) (c1 c2 : List Nat) (fs1 fs2 : FS),
      List.lookup p fs1 = some ⟨m1, s1, c1⟩ →
      List.lookup p fs2 = some ⟨m2, s2, c2⟩ →
      (get_file_hash fs1 p = get_file_hash fs2 p ↔ (m1 = m2 ∧ s1 = s2))) := by
  refine ⟨?_, ?_, ?_⟩
  · intro fs1 fs2 p m s c1 c2 h1 h2
    unfold get_file_hash
    rw [h1, h2]
  · intro fs p
    unfold get_file_hash
    cases h : List.lookup p fs <;> simp
  · intro p m1 s1 m2 s2 c1 c2 fs1 fs2 h1 h2
    unfold get_file_hash
    rw [h1, h2]
    unfold md5Hex
    constructor
    · intro h
      exact keyContent_inj (Option.some.injEq _ _ ▸ h)
    · rintro ⟨e1, e2⟩
      rw [e1, e2]

/-- Closed witness for the key-derivation theorem: two stat snapshots of
the same path with equal mtime and size but different content bytes give
the same key. -/
theorem get_file_hash_spec_witness :
    get_file_hash [("a.wav", ⟨10, 25, [1]⟩)] "a.wav" =
        get_file_hash [("a.wav", ⟨10, 25, [2]⟩)] "a.wav" ∧
      (get_file_hash [("a.wav", ⟨10, 25, [1]⟩)] "b.wav" = none ↔
        List.lookup "b.wav" [("a.wav", (⟨10, 25, [1]⟩ : FileMeta))] = none) ∧
      (get_file_hash [("a.wav", ⟨10, 25, [1]⟩)] "a.wav" =
          get_file_hash [("a.wav", ⟨11, 25, [1]⟩)] "a.wav" ↔
        (10 = 11 ∧ 25 = 25)) :=
  ⟨get_file_hash_spec.1 [("a.wav", ⟨10, 25, [1]⟩)] [("a.wav", ⟨10, 25, [2]⟩)]
      "a.wav" 10 25 [1] [2] rfl rfl,
   get_file_hash_spec.2.1 [("a.wav", ⟨10, 25, [1]⟩)] "b.wav",
   get_file_hash_spec.2.2 "a.wav" 10 25 11 25 [1] [1]
      [("a.wav", ⟨10, 25, [1]⟩)] [("a.wav", ⟨11, 25, [1]⟩)] rfl rfl⟩

/-- The key cache_speaker_embedding and get_cached_embedding derive for a
stat-ed file. -/
def fileKey (p : String) (fmeta : FileMeta) : Key :=
  md5Hex (keyContent p fmeta.mtime fmeta.size)

/-- Association lookup after a dictionary assignment. -/
theorem lookup_cons {β : Type} (k h : Key) (d : β) (l : List (Key × β)) :
    List.lookup k ((h, d) :: l) = if k = h then some d else List.lookup k l := by
  rw [List.lookup]
  by_cases hk : k = h
  · simp [hk]
  · have hb : (k == h) = false := beq_eq_false_iff_ne.mpr hk
    simp [hb, hk]

/-- The reachable-state invariant of the store: every memory-tier entry is
backed by the same conditioning data in the disk tier and by a metadata
record.  It holds for a fresh store and is preserved by every store
operation, so the memory tier never outlives the persistent tier. -/
def memDiskInv (st : CacheState) : Prop :=
  ∀ k d, List.lookup k st.embeddings = some d →
    List.lookup k st.metadata ≠ none ∧ List.lookup k st.blobs = some d

/-- The invariant holds for a fresh store over an empty directory. -/
theorem memDiskInv_init : memDiskInv initState := by
  intro k d h
  simp [initState, List.lookup] at h

/-- The invariant survives a restart (the memory tier restarts empty). -/
theorem memDiskInv_restart (st : CacheState) : memDiskInv (restart st) := by
  intro k d h
  simp [restart, List.lookup] at h

/-- An up-to-date check hit exposes the metadata record and the blob. -/
theorem cachedLookup_some {st : CacheState} {k : Key} {d : EmbData}
    (h : cachedLookup st k = some d) :
    List.lookup k st.metadata ≠ none ∧ List.lookup k st.blobs = some d := by
  unfold cachedLookup at h
  cases hm : List.lookup k st.metadata with
  | none => rw [hm] at h; cases h
  | some me => rw [hm] at h; exact ⟨by simp, h⟩

/-- A metadata record plus a blob make the up-to-date check hit. -/
theorem cachedLookup_intro {st : CacheState} {k : Key} {me : MetaRecord}
    {d : EmbData} (hm : List.lookup k st.metadata = some me)
    (hb : List.lookup k st.blobs = some d) : cachedLookup st k = some d := by
  unfold cachedLookup
  rw [hm, hb]

/-- cache_speaker_embedding preserves the invariant, whatever the
persistence flags and the extractor outcome. -/
theorem memDiskInv_cache (fs : FS) (extractor : String → Option EmbData)
    (wOk mOk : Bool) (st : CacheState) (p : String) (cat : Option String)
    (hinv : memDiskInv st) :
    memDiskInv (cache_speaker_embedding fs extractor wOk mOk st p cat).state := by
  unfold cache_speaker_embedding
  cases hfs : List.lookup p fs with
  | none => simpa using hinv
  | some fmeta =>
    simp only
    cases hc : cachedLookup st (md5Hex (keyContent p fmeta.mtime fmeta.size)) with
    | some cached_data =>
      obtain ⟨hm, hb⟩ := cachedLookup_some hc
      intro k d h
      rw [lookup_cons] at h
      split at h
      case isTrue hk =>
        cases h
        subst hk
        exact ⟨hm, hb⟩
      case isFalse hk => exact hinv k d h
    | none =>
      cases hex : extractor p with
      | none => simpa using hinv
      | some data =>
        dsimp only
        by_cases hw : wOk = true
        · rw [if_pos hw]
          intro k d h
          rw [lookup_cons] at h
          rw [lookup_cons, lookup_cons]
          split at h
          next hk =>
            cases h
            simp [hk]
          next hk =>
            obtain ⟨h1, h2⟩ := hinv k d h
            simp [hk, h1, h2]
        · rw [if_neg hw]
          exact hinv

/-- get_cached_embedding preserves the invariant. -/
theorem memDiskInv_get (fs : FS) (st : CacheState) (p : String)
    (hinv : memDiskInv st) :
    memDiskInv (get_cached_embedding fs st p).state := by
  unfold get_cached_embedding
  cases hfs : List.lookup p fs with
  | none => simpa using hinv
  | some fmeta =>
    simp only
    cases hemb : List.lookup (md5Hex (keyContent p fmeta.mtime fmeta.size))
        st.embeddings with
    | some d => simpa using hinv
    | none =>
      cases hc : cachedLookup st (md5Hex (keyContent p fmeta.mtime fmeta.size)) with
      | some cached_data =>
        obtain ⟨hm, hb⟩ := cachedLookup_some hc
        intro k d h
        simp only at h ⊢
        rw [lookup_cons] at h
        split at h
        case isTrue hk =>
          cases h
          subst hk
          exact ⟨hm, hb⟩
        case isFalse hk => exact hinv k d h
      | none => simpa using hinv

/-- C3: on a hit in the disk tier the existing entry is returned with no
extractor invocation and is promoted into memory; on a memory-tier hit in
a reachable state (the memory tier never outlives the disk tier, see
memDiskInv and its preservation lemmas) the entry is likewise returned
without extraction; only on a miss does the extractor run, exactly once,
after which the result is stored in the memory tier, the blob tier, and
the metadata index (persisted), and returned. -/
theorem cache_speaker_embedding_hit_miss :
    ∀ (fs : FS) (extractor : String → Option EmbData) (wOk mOk : Bool)
      (st : CacheState) (p : String) (cat : Option String) (fmeta : FileMeta),
      List.lookup p fs = some fmeta →
      ((∀ d, cachedLookup st (fileKey p fmeta) = some d →
        cache_speaker_embedding fs extractor wOk mOk st p cat =
          ⟨some d,
           { st with embeddings := (fileKey p fmeta, d) :: st.embeddings },
           0⟩) ∧
      (∀ d, memDiskInv st →
        List.lookup (fileKey p fmeta) st.embeddings = some d →
        (cache_speaker_embedding fs extractor wOk mOk st p cat).result =
            some d ∧
          (cache_speaker_embedding fs extractor wOk mOk st p cat).extractorCalls
            = 0) ∧
      (∀ d, cachedLookup st (fileKey p fmeta) = none → extractor p = some d →
        cache_speaker_embedding fs extractor true true st p cat =
          ⟨some d,
           { embeddings := (fileKey p fmeta, d) :: st.embeddings,
             metadata :=
               (fileKey p fmeta,
                ⟨p, fmeta.mtime, cat, d.extraction_time⟩) :: st.metadata,
             blobs := (fileKey p fmeta, d) :: st.blobs,
             metaFile :=
               some ((fileKey p fmeta,
                 ⟨p, fmeta.mtime, cat, d.extraction_time⟩) :: st.metadata) },
           1⟩)) := by
  intro fs extractor wOk mOk st p cat fmeta hfs
  have ha : ∀ d, cachedLookup st (fileKey p fmeta) = some d →
      cache_speaker_embedding fs extractor wOk mOk st p cat =
        ⟨some d,
         { st with embeddings := (fileKey p fmeta, d) :: st.embeddings }, 0⟩ := by
    intro d hcd
    rw [fileKey] at hcd
    simp [cache_speaker_embedding, hfs, hcd, fileKey]
  refine ⟨ha, ?_, ?_⟩
  · intro d hinv hmem
    obtain ⟨hm, hb⟩ := hinv _ d hmem
    rcases Option.ne_none_iff_exists'.mp hm with ⟨me, hme⟩
    rw [ha d (cachedLookup_intro hme hb)]
    exact ⟨rfl, rfl⟩
  · intro d hnone hex
    rw [fileKey] at hnone
    simp [cache_speaker_embedding, hfs, hnone, hex, fileKey]

/-- Closed witness for the hit-and-miss theorem, exercising the miss
branch on a fresh store. -/
theorem cache_speaker_embedding_hit_miss_witness :
    cache_speaker_embedding [("v.wav", ⟨1, 2, []⟩)] (fun _ => some ⟨7, 8, 3⟩)
        true true initState "v.wav" none =
      ⟨some ⟨7, 8, 3⟩,
       { embeddings := [(fileKey "v.wav" ⟨1, 2, []⟩, ⟨7, 8, 3⟩)],
         metadata := [(fileKey "v.wav" ⟨1, 2, []⟩, ⟨"v.wav", 1, none, 3⟩)],
         blobs := [(fileKey "v.wav" ⟨1, 2, []⟩, ⟨7, 8, 3⟩)],
         metaFile :=
           some [(fileKey "v.wav" ⟨1, 2, []⟩, ⟨"v.wav", 1, none, 3⟩)] },
       1⟩ :=
  (cache_speaker_embedding_hit_miss [("v.wav", ⟨1, 2, []⟩)]
      (fun _ => some ⟨7, 8, 3⟩) true true initState "v.wav" none
      ⟨1, 2, []⟩ rfl).2.2 ⟨7, 8, 3⟩ rfl rfl

/-- C6: after a successful cache of a cold key and a restart of the store
(a fresh instance re-reading the metadata index from disk, the blob files
surviving), a get on the same unchanged path returns the entry that was
cached and promotes it into the memory tier; get takes no extractor
collaborator at all, and on a cold key it returns none and leaves the
state unchanged. -/
theorem cache_restart_roundtrip :
    (∀ (fs : FS) (extractor : String → Option EmbData) (st : CacheState)
      (p : String) (cat : Option String) (fmeta : FileMeta) (d : EmbData),
      List.lookup p fs = some fmeta →
      cachedLookup st (fileKey p fmeta) = none →
      extractor p = some d →
      (cache_speaker_embedding fs extractor true true st p cat).result =
          some d ∧
        (get_cached_embedding fs
          (restart (cache_speaker_embedding fs extractor true true st p
            cat).state) p).result = some d ∧
        List.lookup (fileKey p fmeta)
          (get_cached_embedding fs
            (restart (cache_speaker_embedding fs extractor true true st p
              cat).state) p).state.embeddings = some d) ∧
    (∀ (fs : FS) (st : CacheState) (p : String) (fmeta : FileMeta),
      List.lookup p fs = some fmeta →
      List.lookup (fileKey p fmeta) st.embeddings = none →
      cachedLookup st (fileKey p fmeta) = none →
      get_cached_embedding fs st p = ⟨none, st⟩) := by
  constructor
  · intro fs extractor st p cat fmeta d hfs hnone hex
    rw [fileKey] at hnone
    have hcache : cache_speaker_embedding fs extractor true true st p cat =
        ⟨some d,
         { embeddings :=
             (md5Hex (keyContent p fmeta.mtime fmeta.size), d) :: st.embeddings,
           metadata :=
             (md5Hex (keyContent p fmeta.mtime fmeta.size),
              ⟨p, fmeta.mtime, cat, d.extraction_time⟩) :: st.metadata,
           blobs :=
             (md5Hex (keyContent p fmeta.mtime fmeta.size), d) :: st.blobs,
           metaFile :=
             some ((md5Hex (keyContent p fmeta.mtime fmeta.size),
               ⟨p, fmeta.mtime, cat, d.extraction_time⟩) :: st.metadata) },
         1⟩ := by
      simp [cache_speaker_embedding, hfs, hnone, hex]
    rw [fileKey]
    simp [hcache, restart, get_cached_embedding, hfs, cachedLookup, lookup_cons]
  · intro fs st p fmeta hfs hmem hcd
    rw [fileKey] at hmem hcd
    simp [get_cached_embedding, hfs, hmem, hcd]

/-- Closed witness for the restart round-trip theorem on a one-file
filesystem and a fresh store. -/
theorem cache_restart_roundtrip_witness :
    (cache_speaker_embedding [("w.wav", ⟨4, 5, [9]⟩)] (fun _ => some ⟨6, 7, 2⟩)
        true true initState "w.wav" (some "keyword")).result = some ⟨6, 7, 2⟩ ∧
      (get_cached_embedding [("w.wav", ⟨4, 5, [9]⟩)]
        (restart (cache_speaker_embedding [("w.wav", ⟨4, 5, [9]⟩)]
          (fun _ => some ⟨6, 7, 2⟩) true true initState "w.wav"
          (some "keyword")).state) "w.wav").result = some ⟨6, 7, 2⟩ ∧
      List.lookup (fileKey "w.wav" ⟨4, 5, [9]⟩)
        (get_cached_embedding [("w.wav", ⟨4, 5, [9]⟩)]
          (restart (cache_speaker_embedding [("w.wav", ⟨4, 5, [9]⟩)]
            (fun _ => some ⟨6, 7, 2⟩) true true initState "w.wav"
            (some "keyword")).state) "w.wav").state.embeddings =
        some ⟨6, 7, 2⟩ :=
  cache_restart_roundtrip.1 [("w.wav", ⟨4, 5, [9]⟩)] (fun _ => some ⟨6, 7, 2⟩)
    initState "w.wav" (some "keyword") ⟨4, 5, [9]⟩ ⟨6, 7, 2⟩ rfl rfl rfl

/-- C7 counterexample: when the disk write fails on a cold key, the
freshly extracted entry is returned to the caller, but the in-memory tier
is left empty, contradicting the claim that the memory tier still holds
the entry: in the source the torch.save call precedes the memory insert
inside the try block, so the raised exception skips the insert. -/
theorem cache_disk_failure_memory_empty :
    (cache_speaker_embedding [("v.wav", ⟨1, 2, []⟩)] (fun _ => some ⟨7, 8, 3⟩)
        false true initState "v.wav" none).result = some ⟨7, 8, 3⟩ ∧
    (cache_speaker_embedding [("v.wav", ⟨1, 2, []⟩)] (fun _ => some ⟨7, 8, 3⟩)
        false true initState "v.wav" none).state.embeddings = [] := by
  constructor <;> rfl

/-- C7 amended: when the extractor succeeds but the disk write fails,
cache_speaker_embedding still returns the freshly extracted entry and the
failure is only logged (the call returns normally rather than propagating
a request failure), but no tier retains the entry: the whole store state,
including the in-memory tier, is left unchanged. -/
theorem cache_disk_failure_returns_result :
    ∀ (fs : FS) (extractor : String → Option EmbData) (mOk : Bool)
      (st : CacheState) (p : String) (cat : Option String) (fmeta : FileMeta)
      (d : EmbData),
      List.lookup p fs = some fmeta →
      cachedLookup st (fileKey p fmeta) = none →
      extractor p = some d →
      cache_speaker_embedding fs extractor false mOk st p cat =
        ⟨some d, st, 1⟩ := by
  intro fs extractor mOk st p cat fmeta d hfs hnone hex
  rw [fileKey] at hnone
  simp [cache_speaker_embedding, hfs, hnone, hex]

/-- Closed witness for the amended disk-failure theorem. -/
theorem cache_disk_failure_returns_result_witness :
    cache_speaker_embedding [("v.wav", ⟨1, 2, []⟩)] (fun _ => some ⟨7, 8, 3⟩)
        false true initState "v.wav" none =
      ⟨some ⟨7, 8, 3⟩, initState, 1⟩ :=
  cache_disk_failure_returns_result [("v.wav", ⟨1, 2, []⟩)]
    (fun _ => some ⟨7, 8, 3⟩) true initState "v.wav" none ⟨1, 2, []⟩
    ⟨7, 8, 3⟩ rfl rfl rfl

/-- C8: when the extractor collaborator errors on a cold key,
cache_speaker_embedding returns the failure marker to the caller (None,
never a garbage entry) and creates no entry: memory tier, blob tier,
metadata index, and the persisted index file are all left exactly as they
were. -/
theorem cache_extractor_error_no_entry :
    ∀ (fs : FS) (extractor : String → Option EmbData) (wOk mOk : Bool)
      (st : CacheState) (p : String) (cat : Option String) (fmeta : FileMeta),
      List.lookup p fs = some fmeta →
      cachedLookup st (fileKey p fmeta) = none →
      extractor p = none →
      cache_speaker_embedding fs extractor wOk mOk st p cat =
        ⟨none, st, 1⟩ := by
  intro fs extractor wOk mOk st p cat fmeta hfs hnone hex
  rw [fileKey] at hnone
  simp [cache_speaker_embedding, hfs, hnone, hex]

/-- Closed witness for the extractor-error theorem. -/
theorem cache_extractor_error_no_entry_witness :
    cache_speaker_embedding [("v.wav", ⟨1, 2, []⟩)]
        (fun _ => (none : Option EmbData)) true true initState "v.wav" none =
      ⟨none, initState, 1⟩ :=
  cache_extractor_error_no_entry [("v.wav", ⟨1, 2, []⟩)] (fun _ => none)
    true true initState "v.wav" none ⟨1, 2, []⟩ rfl rfl rfl

/-- C1 counterexample: two concurrent callers of cache_speaker_embedding
on the same cold key, interleaved check-check-extract-extract-store-store,
each invoke the extractor, for two invocations in total where the claim
demands exactly one: the source guards extraction only with a cached-check
and takes no lock, so both callers pass the check before either stores.
Both callers do complete and receive the extractor result. -/
theorem cache_concurrent_double_extraction :
    (sys_run [("v.wav", ⟨1, 2, []⟩)] (fun _ => some ⟨7, 8, 3⟩) "v.wav" none
        [false, true, false, true, false, true] (sysInit initState)).calls
        = 2 ∧
    (sys_run [("v.wav", ⟨1, 2, []⟩)] (fun _ => some ⟨7, 8, 3⟩) "v.wav" none
        [false, true, false, true, false, true] (sysInit initState)).t0 =
      Phase.done (some ⟨7, 8, 3⟩) ∧
    (sys_run [("v.wav", ⟨1, 2, []⟩)] (fun _ => some ⟨7, 8, 3⟩) "v.wav" none
        [false, true, false, true, false, true] (sysInit initState)).t1 =
      Phase.done (some ⟨7, 8, 3⟩) :=
  ⟨rfl, rfl, rfl⟩

/-- Entries the in-flight model may hold for the contended key always
agree with the extractor result. -/
def cacheOk (key : Key) (eRes : Option EmbData) (st : CacheState) : Prop :=
  ∀ d, cachedLookup st key = some d → some d = eRes

/-- Per-caller invariant: data being stored and delivered results agree
with the extractor result. -/
def phaseOk (eRes : Option EmbData) : Phase → Prop
  | .check => True
  | .extract => True
  | .store d => some d = eRes
  | .done r => r = eRes

/-- Extraction budget already consumed by a caller in the given phase. -/
def phaseW : Phase → Nat
  | .check => 0
  | .extract => 0
  | .store _ => 1
  | .done _ => 1

/-- No caller consumes more than one extraction. -/
theorem phaseW_le_one (ph : Phase) : phaseW ph ≤ 1 := by
  cases ph <;> simp [phaseW]

/-- Whole-system invariant for two concurrent callers. -/
def sysOk (key : Key) (eRes : Option EmbData) (s : Sys) : Prop :=
  cacheOk key eRes s.cache ∧ phaseOk eRes s.t0 ∧ phaseOk eRes s.t1 ∧
    s.calls ≤ phaseW s.t0 + phaseW s.t1

/-- One atomic caller step preserves the cache agreement, keeps the
caller invariant, and consumes extraction budget within its weight. -/
theorem phase_step_ok (fs : FS) (extractor : String → Option EmbData)
    (p : String) (cat : Option String) (fmeta : FileMeta)
    (hfs : List.lookup p fs = some fmeta) (st : CacheState) (ph : Phase)
    (hc : cacheOk (fileKey p fmeta) (extractor p) st)
    (hp : phaseOk (extractor p) ph) :
    cacheOk (fileKey p fmeta) (extractor p)
        (phase_step fs extractor p cat st ph).1 ∧
      phaseOk (extractor p) (phase_step fs extractor p cat st ph).2.1 ∧
      (phase_step fs extractor p cat st ph).2.2 + phaseW ph ≤
        phaseW (phase_step fs extractor p cat st ph).2.1 := by
  simp only [fileKey] at hc ⊢
  cases ph with
  | check =>
    unfold phase_step
    rw [hfs]
    dsimp only
    cases hcd : cachedLookup st (md5Hex (keyContent p fmeta.mtime fmeta.size))
        with
    | some cd =>
      dsimp only
      refine ⟨?_, hc cd hcd, by simp [phaseW]⟩
      intro d h
      exact hc d h
    | none =>
      dsimp only
      exact ⟨hc, trivial, by simp [phaseW]⟩
  | extract =>
    unfold phase_step
    cases hex : extractor p with
    | none =>
      dsimp only
      refine ⟨?_, rfl, by simp [phaseW]⟩
      rw [hex] at hc
      exact hc
    | some d =>
      dsimp only
      refine ⟨?_, rfl, by simp [phaseW]⟩
      rw [hex] at hc
      exact hc
  | store d =>
    unfold phase_step
    rw [hfs]
    dsimp only
    refine ⟨?_, hp, by simp [phaseW]⟩
    intro d' h
    unfold cachedLookup at h
    rw [lookup_cons] at h
    rw [if_pos rfl] at h
    dsimp only at h
    rw [lookup_cons] at h
    rw [if_pos rfl] at h
    cases h
    exact hp
  | done r =>
    unfold phase_step
    dsimp only
    exact ⟨hc, hp, by simp [phaseW]⟩

/-- A scheduler step preserves the whole-system invariant. -/
theorem sysOk_step (fs : FS) (extractor : String → Option EmbData)
    (p : String) (cat : Option String) (fmeta : FileMeta)
    (hfs : List.lookup p fs = some fmeta) (w : Bool) (s : Sys)
    (h : sysOk (fileKey p fmeta) (extractor p) s) :
    sysOk (fileKey p fmeta) (extractor p)
      (sys_step fs extractor p cat w s) := by
  obtain ⟨hc, h0, h1, hcalls⟩ := h
  cases w with
  | false =>
    obtain ⟨hc2, hp2, hw2⟩ := phase_step_ok fs extractor p cat fmeta hfs
      s.cache s.t0 hc h0
    refine ⟨hc2, hp2, h1, ?_⟩
    show s.calls + (phase_step fs extractor p cat s.cache s.t0).2.2 ≤
      phaseW (phase_step fs extractor p cat s.cache s.t0).2.1 + phaseW s.t1
    omega
  | true =>
    obtain ⟨hc2, hp2, hw2⟩ := phase_step_ok fs extractor p cat fmeta hfs
      s.cache s.t1 hc h1
    refine ⟨hc2, h0, hp2, ?_⟩
    show s.calls + (phase_step fs extractor p cat s.cache s.t1).2.2 ≤
      phaseW s.t0 + phaseW (phase_step fs extractor p cat s.cache s.t1).2.1
    omega

/-- A whole schedule preserves the whole-system invariant. -/
theorem sysOk_run (fs : FS) (extractor : String → Option EmbData)
    (p : String) (cat : Option String) (fmeta : FileMeta)
    (hfs : List.lookup p fs = some fmeta) (sched : List Bool) :
    ∀ s : Sys, sysOk (fileKey p fmeta) (extractor p) s →
      sysOk (fileKey p fmeta) (extractor p)
        (sys_run fs extractor p cat sched s) := by
  induction sched with
  | nil => intro s h; exact h
  | cons w tl ih =>
    intro s h
    exact ih _ (sysOk_step fs extractor p cat fmeta hfs w s h)

/-- C1 amended: the source has no single-flight guard, so two concurrent
callers on a cold key may each invoke the extractor, up to one invocation
per caller (at most two in total); still, under every interleaving each
caller that completes receives the extractor result for the path, so all
callers receive an equivalent result. -/
theorem cache_concurrent_amended :
    ∀ (fs : FS) (extractor : String → Option EmbData) (p : String)
      (cat : Option String) (fmeta : FileMeta) (sched : List Bool)
      (st : CacheState),
      List.lookup p fs = some fmeta →
      cacheOk (fileKey p fmeta) (extractor p) st →
      (sys_run fs extractor p cat sched (sysInit st)).calls ≤ 2 ∧
        (∀ r, (sys_run fs extractor p cat sched (sysInit st)).t0 =
          Phase.done r → r = extractor p) ∧
        (∀ r, (sys_run fs extractor p cat sched (sysInit st)).t1 =
          Phase.done r → r = extractor p) := by
  intro fs extractor p cat fmeta sched st hfs hcold
  have hinit : sysOk (fileKey p fmeta) (extractor p) (sysInit st) :=
    ⟨hcold, trivial, trivial, by simp [sysInit, phaseW]⟩
  obtain ⟨hc, h0, h1, hcalls⟩ :=
    sysOk_run fs extractor p cat fmeta hfs sched (sysInit st) hinit
  refine ⟨?_, ?_, ?_⟩
  · have w0 := phaseW_le_one (sys_run fs extractor p cat sched (sysInit st)).t0
    have w1 := phaseW_le_one (sys_run fs extractor p cat sched (sysInit st)).t1
    omega
  · intro r hr
    rw [hr] at h0
    exact h0
  · intro r hr
    rw [hr] at h1
    exact h1

/-- Closed witness for the amended concurrency theorem, on the very
interleaving of the counterexample. -/
theorem cache_concurrent_amended_witness :
    (sys_run [("v.wav", ⟨1, 2, []⟩)] (fun _ => some ⟨7, 8, 3⟩) "v.wav" none
        [false, true, false, true, false, true] (sysInit initState)).calls
        ≤ 2 ∧
      (∀ r, (sys_run [("v.wav", ⟨1, 2, []⟩)] (fun _ => some ⟨7, 8, 3⟩)
          "v.wav" none [false, true, false, true, false, true]
          (sysInit initState)).t0 = Phase.done r →
        r = (fun _ : String => some (⟨7, 8, 3⟩ : EmbData)) "v.wav") ∧
      (∀ r, (sys_run [("v.wav", ⟨1, 2, []⟩)] (fun _ => some ⟨7, 8, 3⟩)
          "v.wav" none [false, true, false, true, false, true]
          (sysInit initState)).t1 = Phase.done r →
        r = (fun _ : String => some (⟨7, 8, 3⟩ : EmbData)) "v.wav") :=
  cache_concurrent_amended [("v.wav", ⟨1, 2, []⟩)] (fun _ => some ⟨7, 8, 3⟩)
    "v.wav" none ⟨1, 2, []⟩ [false, true, false, true, false, true]
    initState rfl (by intro d h; cases h)

end Lipcoder
